import Mathlib

/-!
Shallow embedding of the key-derivation and encoding core declared in
src/src/crypto.h. Machine bytes are modelled as natural numbers below 256,
buffers as lists of bytes, and the hashing / elliptic-curve primitives of the
platform as abstract capability records, following the interface description of
the specification. Function bodies that live outside the provided header are
modelled from the specification; each such definition says so in its doc
comment.
-/

/-- Modelled from the spec: write_u16_be of common/write.h (not under src/),
serializing a 16-bit value in big-endian as two bytes. -/
def write_u16_be (v : ℕ) : List ℕ :=
  [v / 2 ^ 8 % 2 ^ 8, v % 2 ^ 8]

/-- Modelled from the spec: write_u32_be of common/write.h (not under src/),
serializing a 32-bit value in big-endian as four bytes. -/
def write_u32_be (v : ℕ) : List ℕ :=
  [v / 2 ^ 24 % 2 ^ 8, v / 2 ^ 16 % 2 ^ 8, v / 2 ^ 8 % 2 ^ 8, v % 2 ^ 8]

/-- Little-endian serialization of a natural number on a fixed byte width. -/
def le_bytes : ℕ → ℕ → List ℕ
  | 0, _ => []
  | w + 1, v => v % 2 ^ 8 :: le_bytes w (v / 2 ^ 8)

/-- Modelled from the spec: varint_write of common/varint.h (not under src/),
producing the bytes of bitcoin's variable-length integer encoding of a value. -/
def varint_write (v : ℕ) : List ℕ :=
  if v < 0xFD then [v]
  else if v < 0x10000 then 0xFD :: le_bytes 2 v
  else if v < 0x100000000 then 0xFE :: le_bytes 4 v
  else 0xFF :: le_bytes 8 v

/-- A hash context of the underlying hashing capability is modelled
extensionally as the byte stream fed to it so far; cx_hash appends bytes. -/
def crypto_hash_update (ctx : List ℕ) (d : List ℕ) : List ℕ := ctx ++ d

/-- crypto_hash_update_u8 (src/src/crypto.h line 114): feed one byte. -/
def crypto_hash_update_u8 (ctx : List ℕ) (b : ℕ) : List ℕ :=
  crypto_hash_update ctx [b % 2 ^ 8]

/-- crypto_hash_update_u16 (src/src/crypto.h line 129): feed a 16-bit value
in big-endian. -/
def crypto_hash_update_u16 (ctx : List ℕ) (d : ℕ) : List ℕ :=
  crypto_hash_update ctx (write_u16_be d)

/-- crypto_hash_update_u32 (src/src/crypto.h line 163): feed a 32-bit value
in big-endian. -/
def crypto_hash_update_u32 (ctx : List ℕ) (d : ℕ) : List ℕ :=
  crypto_hash_update ctx (write_u32_be d)

/-- crypto_hash_update_varint (src/src/crypto.h line 146): serialize the value
with varint_write into a scratch buffer and feed exactly those bytes. -/
def crypto_hash_update_varint (ctx : List ℕ) (d : ℕ) : List ℕ :=
  crypto_hash_update ctx (varint_write d)

/-- The compact-size encoding exactly as the specification spells it, with
every byte written explicitly, to be compared with the code's varint_write. -/
def compactsize_spec (v : ℕ) : List ℕ :=
  if v < 0xFD then [v]
  else if v < 0x10000 then [0xFD, v % 2 ^ 8, v / 2 ^ 8 % 2 ^ 8]
  else if v < 0x100000000 then
    [0xFE, v % 2 ^ 8, v / 2 ^ 8 % 2 ^ 8, v / 2 ^ 16 % 2 ^ 8, v / 2 ^ 24 % 2 ^ 8]
  else
    [0xFF, v % 2 ^ 8, v / 2 ^ 8 % 2 ^ 8, v / 2 ^ 16 % 2 ^ 8, v / 2 ^ 24 % 2 ^ 8,
      v / 2 ^ 32 % 2 ^ 8, v / 2 ^ 40 % 2 ^ 8, v / 2 ^ 48 % 2 ^ 8, v / 2 ^ 56 % 2 ^ 8]

/-- The Base58 alphabet used by bitcoin. -/
def base58_alphabet : List Char :=
  ("123456789ABCDEFGHJKLMNPQRSTUVWXYZabcdefghijkmnopqrstuvwxyz").toList

/-- A big-endian byte string read as a natural number. -/
def beToNat (l : List ℕ) : ℕ :=
  l.foldl (fun a b => a * 2 ^ 8 + b) 0

/-- Base-58 digits of a number, least significant first, with a fuel bound on
the number of divisions. -/
def base58_digits_aux : ℕ → ℕ → List ℕ
  | 0, _ => []
  | _ + 1, 0 => []
  | fuel + 1, v + 1 => (v + 1) % 58 :: base58_digits_aux fuel ((v + 1) / 58)

/-- Modelled from the spec: the text produced by base58_encode of
common/base58.c (not under src/) for a given byte string; each leading zero
byte maps to the character 1, and the remaining bytes are read as a big-endian
number and written in base 58 using the bitcoin alphabet. Two divisions per
input byte are enough fuel since 58 * 58 exceeds 256. -/
def base58_render (data : List ℕ) : List Char :=
  (data.takeWhile (· = 0)).map (fun _ => '1') ++
    ((base58_digits_aux (2 * data.length) (beToNat data)).reverse.map
      (fun d => base58_alphabet.getD d '1'))

/-- Modelled from the spec: base58_encode of common/base58.c (not under src/).
The caller's output buffer is passed as its previous contents together with its
capacity; on success the encoded text replaces the contents and its length is
returned, and if the text plus the terminator exceeds the capacity the call
returns -1 and the buffer is left untouched. -/
def base58_encode (data : List ℕ) (out0 : List Char) (out_len : ℕ) :
    Int × List Char :=
  let s := base58_render data
  if out_len < s.length + 1 then (-1, out0) else ((s.length : Int), s)

/-- crypto_get_checksum (src/src/crypto.h line 234), modelled from the spec
over an abstract SHA-256 capability: first 4 bytes of the double SHA-256. -/
def crypto_get_checksum (sha256 : List ℕ → List ℕ) (data : List ℕ) : List ℕ :=
  (sha256 (sha256 data)).take 4

/-- Modelled from the spec: the version prefix bytes used by
base58_encode_address, produced the way the C code does, with write_u16_be or
write_u32_be for the wider widths. -/
def address_version_bytes (version : ℕ) : List ℕ :=
  if version < 256 then [version]
  else if version < 65536 then write_u16_be version
  else write_u32_be version

/-- The payload that base58_encode_address encodes: version prefix, then the
20-byte hash, then the 4-byte checksum of prefix and hash. -/
def address_payload (sha256 : List ℕ → List ℕ) (h : List ℕ) (version : ℕ) :
    List ℕ :=
  address_version_bytes version ++ h ++
    crypto_get_checksum sha256 (address_version_bytes version ++ h)

/-- Modelled from the spec: base58_encode_address (src/src/crypto.h line 322),
whose body is not under src/. It prepends the version prefix to the hash,
appends the 4-byte double-SHA-256 checksum of prefix and hash, and hands the
result to base58_encode with the caller's buffer and capacity. -/
def base58_encode_address (sha256 : List ℕ → List ℕ) (h : List ℕ)
    (version : ℕ) (out0 : List Char) (out_len : ℕ) : Int × List Char :=
  base58_encode (address_payload sha256 h version) out0 out_len

/-- The minimal big-endian representation of the version exactly as the claim
words it: one byte below 256, two bytes below 65536, four bytes otherwise,
each width written as the reversed little-endian serialization. -/
def version_prefix_spec (version : ℕ) : List ℕ :=
  if version < 256 then (le_bytes 1 version).reverse
  else if version < 65536 then (le_bytes 2 version).reverse
  else (le_bytes 4 version).reverse

/-- The first hardened child index of BIP32. -/
def bip32_first_hardened_child : ℕ := 0x80000000

/-- The elliptic-curve and HMAC capabilities the core consumes, which the
specification places out of scope and models as abstract interfaces: the group
order, the point type, point addition, scalar multiplication of the base
point, compressed point serialization and parsing, private scalar
serialization, HMAC-SHA512 (keyed by a chain code, returning 64 bytes), and
recovery of a y-coordinate from an x-coordinate and a parity bit. -/
structure CurveCap where
  n : ℕ
  Point : Type
  padd : Point → Point → Point
  basemul : ZMod n → Point
  serP : Point → List ℕ
  parseP : List ℕ → Option Point
  ser256 : ZMod n → List ℕ
  hmac512 : List ℕ → List ℕ → List ℕ
  recoverY : List ℕ → ℕ → Option (List ℕ)

/-- The hashing capabilities the core consumes: SHA-256 and RIPEMD-160. -/
structure HashCap where
  sha256 : List ℕ → List ℕ
  ripemd160 : List ℕ → List ℕ

/-- crypto_hash160 (src/src/crypto.h line 191), modelled from its contract:
RIPEMD160 of SHA256 of the input. -/
def crypto_hash160 (H : HashCap) (data : List ℕ) : List ℕ :=
  H.ripemd160 (H.sha256 data)

/-- crypto_get_key_fingerprint (src/src/crypto.h line 262), modelled from its
contract: the first 4 bytes of the HASH160 of the compressed public key, read
as a big-endian 32-bit integer. -/
def crypto_get_key_fingerprint (H : HashCap) (pub_key : List ℕ) : ℕ :=
  beToNat ((crypto_hash160 H pub_key).take 4)

/-- The error taxonomy of the specification. -/
inductive crypto_error where
  | InvalidIndex
  | InvalidPointEncoding
  | ScalarOutOfRange
  | BufferTooSmall
  | CapabilityFailure
deriving DecidableEq

/-- serialized_extended_pubkey_t (src/src/crypto.h line 19): a BIP32 serialized
extended public key, all fields big-endian byte arrays. -/
structure serialized_extended_pubkey_t where
  version : List ℕ
  depth : ℕ
  parent_fingerprint : List ℕ
  child_number : List ℕ
  chain_code : List ℕ
  compressed_pubkey : List ℕ
deriving DecidableEq

/-- Modelled from the spec: one private child-key derivation step of the BIP32
engine used by crypto_derive_private_key, whose body is not under src/. For a
hardened index the HMAC-SHA512 keyed by the chain code covers a zero byte, the
serialized private key and the big-endian index; for a normal index it covers
the compressed public key and the big-endian index. The left 32 bytes, read as
a scalar, are added to the private key modulo the group order; the call fails
if that scalar is not below the group order or the sum is zero; the right 32
bytes become the child chain code. -/
def ckd_priv_child (C : CurveCap) (k : ZMod C.n) (c : List ℕ) (i : ℕ) :
    Option (ZMod C.n × List ℕ) :=
  let data :=
    if i < bip32_first_hardened_child then
      C.serP (C.basemul k) ++ write_u32_be i
    else
      0 :: (C.ser256 k ++ write_u32_be i)
  let I := C.hmac512 c data
  let il := beToNat (I.take 32)
  if C.n ≤ il then none
  else
    let kc : ZMod C.n := (il : ZMod C.n) + k
    if kc = 0 then none else some (kc, I.drop 32)

/-- Modelled from the spec: the BIP32 private derivation loop of
crypto_derive_private_key (src/src/crypto.h line 48), starting from the master
private key and chain code and applying ckd_priv_child along the path. -/
def crypto_derive_private_key (C : CurveCap) :
    ZMod C.n → List ℕ → List ℕ → Option (ZMod C.n × List ℕ)
  | k, c, [] => some (k, c)
  | k, c, i :: rest =>
    match ckd_priv_child C k c i with
    | none => none
    | some kc => crypto_derive_private_key C kc.1 kc.2 rest

/-- Modelled from the spec: the caller-facing buffer behaviour of
crypto_derive_private_key. The contract at src/src/crypto.h lines 33 to 35
requires the caller to wrap the call in a TRY block whose FINALLY wipes the
output private key, so on failure the caller-owned output buffers hold the
secret material populated so far (the key and chain code of the last level
reached), not zeros; the function itself only reports -1. On success they hold
the derived key and chain code and the function reports 0. -/
def crypto_derive_private_key_out (C : CurveCap) :
    ZMod C.n → List ℕ → List ℕ → Int × List ℕ × List ℕ
  | k, c, [] => (0, C.ser256 k, c)
  | k, c, i :: rest =>
    match ckd_priv_child C k c i with
    | none => (-1, C.ser256 k, c)
    | some kc => crypto_derive_private_key_out C kc.1 kc.2 rest

/-- The caller-side wrapper the header documentation prescribes: a TRY block
whose FINALLY wipes the output buffers whenever the call failed, modelled by
zeroing every byte of both output buffers on a non-zero return. -/
def crypto_derive_private_key_wrapped (C : CurveCap) (k : ZMod C.n)
    (c : List ℕ) (path : List ℕ) : Int × List ℕ × List ℕ :=
  if (crypto_derive_private_key_out C k c path).1 = 0 then
    crypto_derive_private_key_out C k c path
  else
    ((crypto_derive_private_key_out C k c path).1,
      (crypto_derive_private_key_out C k c path).2.1.map (fun _ => 0),
      (crypto_derive_private_key_out C k c path).2.2.map (fun _ => 0))

/-- bip32_CKDpub (src/src/crypto.h line 67), modelled from the spec since its
body is not under src/: public-only child derivation on serialized extended
public keys. A hardened index fails with InvalidIndex and the child buffer
(passed as its previous contents) is left untouched. Otherwise HMAC-SHA512
keyed by the parent chain code covers the parent compressed public key and the
big-endian index; the left 32 bytes scalar-multiply the base point and the
result is added to the parent point; the child record keeps the parent
version, increments the depth, stores the fingerprint of the parent public
key, the big-endian child number, the right 32 bytes as chain code and the
serialized child point. -/
def bip32_CKDpub (C : CurveCap) (H : HashCap)
    (parent : serialized_extended_pubkey_t) (index : ℕ)
    (child0 : serialized_extended_pubkey_t) :
    Except crypto_error Unit × serialized_extended_pubkey_t :=
  if bip32_first_hardened_child ≤ index then (.error .InvalidIndex, child0)
  else
    match C.parseP parent.compressed_pubkey with
    | none => (.error .InvalidPointEncoding, child0)
    | some P =>
      let I := C.hmac512 parent.chain_code
        (parent.compressed_pubkey ++ write_u32_be index)
      let il := beToNat (I.take 32)
      let childP := C.padd (C.basemul (il : ZMod C.n)) P
      (.ok (),
        { version := parent.version
          depth := parent.depth + 1
          parent_fingerprint :=
            write_u32_be (crypto_get_key_fingerprint H parent.compressed_pubkey)
          child_number := write_u32_be index
          chain_code := I.drop 32
          compressed_pubkey := C.serP childP })

/-- Iterating bip32_CKDpub along a path, overwriting the record in place as
the header allows (child equals parent). -/
def bip32_CKDpub_iter (C : CurveCap) (H : HashCap) :
    serialized_extended_pubkey_t → List ℕ →
    Except crypto_error serialized_extended_pubkey_t
  | r, [] => .ok r
  | r, i :: rest =>
    match bip32_CKDpub C H r i r with
    | (.ok _, r1) => bip32_CKDpub_iter C H r1 rest
    | (.error e, _) => .error e

/-- crypto_get_compressed_pubkey (src/src/crypto.h line 206), modelled from
the spec since its body is not under src/: validates that the input is 65
bytes starting with 0x04, copies the x-coordinate and sets the leading byte to
0x02 when the y-coordinate is even and 0x03 when it is odd; otherwise fails
with InvalidPointEncoding. -/
def crypto_get_compressed_pubkey (u : List ℕ) : Except crypto_error (List ℕ) :=
  if u.length = 65 ∧ u.headD 0 = 4 then
    .ok ((2 + (u.drop 33).getLastD 0 % 2) :: (u.drop 1).take 32)
  else .error .InvalidPointEncoding

/-- crypto_get_uncompressed_pubkey (src/src/crypto.h line 221), modelled from
the spec since its body is not under src/: validates that the input is 33
bytes starting with 0x02 or 0x03, recovers the y-coordinate through the curve
capability from the x-coordinate and the parity bit, and prepends 0x04; fails
with InvalidPointEncoding on a bad prefix or when no point exists. -/
def crypto_get_uncompressed_pubkey (C : CurveCap) (k : List ℕ) :
    Except crypto_error (List ℕ) :=
  if k.length = 33 ∧ (k.headD 0 = 2 ∨ k.headD 0 = 3) then
    match C.recoverY (k.drop 1) (k.headD 0 - 2) with
    | some y => .ok (4 :: (k.drop 1 ++ y))
    | none => .error .InvalidPointEncoding
  else .error .InvalidPointEncoding

/-- crypto_get_compressed_pubkey_at_path (src/src/crypto.h line 248), modelled
from the spec since its body is not under src/: derives down the path from the
master key material and returns only public results. The chain-code argument
mirrors the nullable C pointer: passing none means no chain-code buffer
exists and none is touched, passing some buffer means the derived chain code
is written into it. The result is none when the derivation fails (the C code
throws in that case). -/
def crypto_get_compressed_pubkey_at_path (C : CurveCap) (k : ZMod C.n)
    (c : List ℕ) (path : List ℕ) (chain_code : Option (List ℕ)) :
    Option (List ℕ × Option (List ℕ)) :=
  match crypto_derive_private_key C k c path with
  | none => none
  | some kc => some (C.serP (C.basemul kc.1), chain_code.map (fun _ => kc.2))

/-- The 78-byte serialization of an extended public key: version, depth byte,
parent fingerprint, child number, chain code, compressed public key. -/
def serialize_extended_pubkey (r : serialized_extended_pubkey_t) : List ℕ :=
  r.version ++ [r.depth % 2 ^ 8] ++ r.parent_fingerprint ++ r.child_number ++
    r.chain_code ++ r.compressed_pubkey

/-- The fingerprint stored in the parent-fingerprint field of a serialized
extended public key: zero at the root, otherwise the fingerprint of the public
key derived at the path without its last element. -/
def xpub_parent_fingerprint (C : CurveCap) (H : HashCap) (k : ZMod C.n)
    (c : List ℕ) (path : List ℕ) : ℕ :=
  if path = [] then 0
  else
    match crypto_derive_private_key C k c path.dropLast with
    | none => 0
    | some pkc => crypto_get_key_fingerprint H (C.serP (C.basemul pkc.1))

/-- The extended public key record composed for a derivation result kc at the
given path: version in big-endian, depth equal to the path length, parent
fingerprint, last path element as child number, derived chain code and
compressed public key. -/
def xpub_record (C : CurveCap) (H : HashCap) (k : ZMod C.n) (c : List ℕ)
    (path : List ℕ) (version : ℕ) (kc : ZMod C.n × List ℕ) :
    serialized_extended_pubkey_t :=
  { version := write_u32_be version
    depth := path.length
    parent_fingerprint := write_u32_be (xpub_parent_fingerprint C H k c path)
    child_number := write_u32_be (path.getLastD 0)
    chain_code := kc.2
    compressed_pubkey := C.serP (C.basemul kc.1) }

/-- get_serialized_extended_pubkey_at_path (src/src/crypto.h line 286),
modelled from the spec since its body is not under src/: composes the 78-byte
extended public key record for the derivation result at the path, appends the
4-byte double-SHA-256 checksum of the record and Base58-encodes the result
into the caller's buffer, returning -1 on a failed derivation or when the
buffer cannot hold the text. -/
def get_serialized_extended_pubkey_at_path (C : CurveCap) (H : HashCap)
    (k : ZMod C.n) (c : List ℕ) (path : List ℕ) (version : ℕ)
    (out0 : List Char) (out_len : ℕ) : Int × List Char :=
  match crypto_derive_private_key C k c path with
  | none => (-1, out0)
  | some kc =>
    base58_encode
      (serialize_extended_pubkey (xpub_record C H k c path version kc) ++
        crypto_get_checksum H.sha256
          (serialize_extended_pubkey (xpub_record C H k c path version kc)))
      out0 out_len

/-- A small concrete instantiation of the curve capability, used to evaluate
the theorems on explicit inputs: the group of order 5 acting on itself, with a
toy HMAC whose left scalar stays below the order. -/
@[reducible] def exCurve : CurveCap where
  n := 5
  Point := ZMod 5
  padd := fun a b => a + b
  basemul := fun a => a
  serP := fun p => p.val :: List.replicate 32 0
  parseP := fun l =>
    match l with
    | v :: _ => if v < 5 then some ((v : ℕ) : ZMod 5) else none
    | [] => none
  ser256 := fun kk => [kk.val]
  hmac512 := fun key msg =>
    List.replicate 31 0 ++ [(key.sum + msg.sum) % 5] ++
      List.replicate 31 0 ++ [(key.sum + msg.sum) % 7]
  recoverY := fun x p =>
    if x.length = 32 ∧ p < 2 then some (List.replicate 31 0 ++ [p]) else none

/-- A small concrete instantiation of the hashing capability. -/
def exHash : HashCap where
  sha256 := fun l => [l.sum % 256, 1, 2, 3]
  ripemd160 := fun l => l.sum % 256 :: List.replicate 19 7

/-- A concrete parent extended public key over exCurve, holding the public
point of the private key 1 and the chain code [2]. -/
def exParent : serialized_extended_pubkey_t where
  version := [4, 136, 178, 30]
  depth := 0
  parent_fingerprint := [0, 0, 0, 0]
  child_number := [0, 0, 0, 0]
  chain_code := [2]
  compressed_pubkey := 1 :: List.replicate 32 0

/-- Claim C8: crypto_hash_update_varint feeds into the hash exactly the bitcoin
compact-size encoding of the value: one byte below 0xFD, 0xFD plus two
little-endian bytes below 0x10000, 0xFE plus four little-endian bytes below
0x100000000, and 0xFF plus eight little-endian bytes otherwise. -/
theorem crypto_hash_update_varint_compactsize (ctx : List ℕ) (v : ℕ)
    (hv : v < 2 ^ 64) :
    crypto_hash_update_varint ctx v = ctx ++ compactsize_spec v := by
  unfold crypto_hash_update_varint crypto_hash_update varint_write compactsize_spec
  split_ifs <;>
    simp [le_bytes, Nat.div_div_eq_div_mul]

/-- Witness for claim C8 at the concrete value 2 ^ 32 (nine-byte branch). -/
theorem crypto_hash_update_varint_compactsize_witness :
    crypto_hash_update_varint [7] (2 ^ 32) = [7] ++ compactsize_spec (2 ^ 32) :=
  crypto_hash_update_varint_compactsize [7] (2 ^ 32) (by norm_num)

/-- Claim C5: for every 20-byte hash and 32-bit version, base58_encode_address
encodes Base58 of prefix, hash and checksum, where the prefix is the version in
big-endian on 1, 2 or 4 bytes according to its magnitude and the checksum is
the first 4 bytes of the double SHA-256 of prefix and hash. -/
theorem base58_encode_address_spec (sha256 : List ℕ → List ℕ) (h : List ℕ)
    (version : ℕ) (out0 : List Char) (out_len : ℕ)
    (hh : h.length = 20) (hv : version < 2 ^ 32) :
    base58_encode_address sha256 h version out0 out_len =
      base58_encode
        (version_prefix_spec version ++ h ++
          (sha256 (sha256 (version_prefix_spec version ++ h))).take 4)
        out0 out_len := by
  have hpfx : address_version_bytes version = version_prefix_spec version := by
    unfold address_version_bytes version_prefix_spec write_u16_be write_u32_be
    split_ifs with h1 h2 <;>
      simp [le_bytes, Nat.div_div_eq_div_mul] <;> omega
  unfold base58_encode_address address_payload crypto_get_checksum
  rw [hpfx]

/-- Witness for claim C5 at a concrete hash, version and capacity. -/
theorem base58_encode_address_spec_witness :
    base58_encode_address (fun l => l) (List.replicate 20 1) 300 [] 60 =
      base58_encode
        (version_prefix_spec 300 ++ List.replicate 20 1 ++
          ((fun (l : List ℕ) => l)
            ((fun (l : List ℕ) => l)
              (version_prefix_spec 300 ++ List.replicate 20 1))).take 4)
        [] 60 :=
  base58_encode_address_spec (fun l => l) (List.replicate 20 1) 300 [] 60
    (by simp) (by norm_num)

/-- Claim C6: whenever the Base58Check text plus the terminator does not fit in
the caller's capacity, base58_encode_address returns -1 and leaves the output
buffer as it was, with no truncated encoding written. -/
theorem base58_encode_address_overflow (sha256 : List ℕ → List ℕ) (h : List ℕ)
    (version : ℕ) (out0 : List Char) (out_len : ℕ)
    (hcap : out_len < (base58_render (address_payload sha256 h version)).length + 1) :
    base58_encode_address sha256 h version out0 out_len = (-1, out0) := by
  unfold base58_encode_address base58_encode
  simp only [if_pos hcap]

/-- Witness for claim C6: a zero capacity rejects the encoding and leaves the
previous buffer contents in place. -/
theorem base58_encode_address_overflow_witness :
    base58_encode_address (fun _ => []) (List.replicate 20 0) 0 ['x'] 0 =
      (-1, ['x']) :=
  base58_encode_address_overflow (fun _ => []) (List.replicate 20 0) 0 ['x'] 0
    (by decide)

/-- Claim C2: for every hardened index, bip32_CKDpub fails with InvalidIndex
and leaves the child output structure completely unmodified. -/
theorem bip32_CKDpub_hardened_fails (C : CurveCap) (H : HashCap)
    (parent : serialized_extended_pubkey_t) (index : ℕ)
    (child0 : serialized_extended_pubkey_t)
    (hi : bip32_first_hardened_child ≤ index) :
    bip32_CKDpub C H parent index child0 =
      (.error .InvalidIndex, child0) := by
  unfold bip32_CKDpub
  rw [if_pos hi]

/-- Witness for claim C2 at the first hardened index. -/
theorem bip32_CKDpub_hardened_fails_witness :
    bip32_CKDpub exCurve exHash exParent 0x80000000 exParent =
      (.error .InvalidIndex, exParent) :=
  bip32_CKDpub_hardened_fails exCurve exHash exParent 0x80000000 exParent
    (by norm_num [bip32_first_hardened_child])

/-- Claim C10: for every non-hardened index, a successful bip32_CKDpub keeps
the parent's version in the child and sets exactly depth (parent depth plus
one), parent fingerprint (fingerprint of the parent public key), child number
(the index in big-endian), chain code and compressed public key. -/
theorem bip32_CKDpub_success_fields (C : CurveCap) (H : HashCap)
    (parent : serialized_extended_pubkey_t) (index : ℕ)
    (child0 : serialized_extended_pubkey_t) (P : C.Point)
    (hi : index < bip32_first_hardened_child)
    (hP : C.parseP parent.compressed_pubkey = some P) :
    ∃ cc pk,
      bip32_CKDpub C H parent index child0 =
        (.ok (),
          { version := parent.version
            depth := parent.depth + 1
            parent_fingerprint :=
              write_u32_be (crypto_get_key_fingerprint H parent.compressed_pubkey)
            child_number := write_u32_be index
            chain_code := cc
            compressed_pubkey := pk }) := by
  unfold bip32_CKDpub
  rw [if_neg (by rw [not_le]; exact hi), hP]
  exact ⟨_, _, rfl⟩

/-- Witness for claim C10 at index 0 over the concrete capabilities. -/
theorem bip32_CKDpub_success_fields_witness :
    ∃ cc pk,
      bip32_CKDpub exCurve exHash exParent 0 exParent =
        (.ok (),
          { version := exParent.version
            depth := exParent.depth + 1
            parent_fingerprint :=
              write_u32_be
                (crypto_get_key_fingerprint exHash exParent.compressed_pubkey)
            child_number := write_u32_be 0
            chain_code := cc
            compressed_pubkey := pk }) :=
  bip32_CKDpub_success_fields exCurve exHash exParent 0 exParent
    (((1 : ℕ) : ZMod 5)) (by norm_num [bip32_first_hardened_child]) (by rfl)

/-- Claim C9: crypto_get_compressed_pubkey_at_path accepts a missing
chain-code buffer: with none it writes only the public key and touches no
chain-code buffer, with a buffer present it additionally writes the derived
chain code, and the public key is identical in both cases. -/
theorem crypto_get_compressed_pubkey_at_path_chain_code_optional
    (C : CurveCap) (k : ZMod C.n) (c : List ℕ) (path : List ℕ) (b : List ℕ) :
    (crypto_get_compressed_pubkey_at_path C k c path none).map Prod.fst =
        (crypto_get_compressed_pubkey_at_path C k c path (some b)).map Prod.fst ∧
      (crypto_get_compressed_pubkey_at_path C k c path none).map Prod.snd =
        (crypto_derive_private_key C k c path).map (fun _ => none) ∧
      (crypto_get_compressed_pubkey_at_path C k c path (some b)).map Prod.snd =
        (crypto_derive_private_key C k c path).map (fun kc => some kc.2) := by
  unfold crypto_get_compressed_pubkey_at_path
  cases crypto_derive_private_key C k c path <;> simp

/-- Claim C3 counterexample: a failing derivation returns -1 while the
caller-owned output buffers still hold non-zero secret material, so the core
does not wipe them on the error path. -/
theorem derive_private_key_no_wipe_on_error :
    (crypto_derive_private_key_out exCurve ((4 : ℕ) : ZMod exCurve.n)
        [2] [0]).1 = -1 ∧
      (crypto_derive_private_key_out exCurve ((4 : ℕ) : ZMod exCurve.n)
          [2] [0]).2.1 ≠
        List.replicate
          (crypto_derive_private_key_out exCurve ((4 : ℕ) : ZMod exCurve.n)
              [2] [0]).2.1.length 0 := by
  decide

/-- Claim C3 as amended: the contract at src/src/crypto.h lines 33 to 35 puts
the wiping of the output secret buffers on the caller, through a TRY block
whose FINALLY erases them; once that documented wrapper is applied, every
error return leaves both output buffers all zeros. -/
theorem derive_private_key_caller_wipes (C : CurveCap) (k : ZMod C.n)
    (c : List ℕ) (path : List ℕ)
    (hfail : (crypto_derive_private_key_wrapped C k c path).1 ≠ 0) :
    (∀ b ∈ (crypto_derive_private_key_wrapped C k c path).2.1, b = 0) ∧
      ∀ b ∈ (crypto_derive_private_key_wrapped C k c path).2.2, b = 0 := by
  unfold crypto_derive_private_key_wrapped at hfail ⊢
  by_cases h0 : (crypto_derive_private_key_out C k c path).1 = 0
  · rw [if_pos h0] at hfail
    exact absurd h0 hfail
  · rw [if_neg h0]
    refine ⟨fun b hb => ?_, fun b hb => ?_⟩ <;>
      (rw [List.mem_map] at hb
       obtain ⟨x, -, h⟩ := hb
       exact h.symm)

/-- Witness for the amended claim C3 at a concrete failing derivation. -/
theorem derive_private_key_caller_wipes_witness :
    (∀ b ∈ (crypto_derive_private_key_wrapped exCurve
        ((4 : ℕ) : ZMod exCurve.n) [2] [0]).2.1, b = 0) ∧
      ∀ b ∈ (crypto_derive_private_key_wrapped exCurve
          ((4 : ℕ) : ZMod exCurve.n) [2] [0]).2.2, b = 0 :=
  derive_private_key_caller_wipes exCurve ((4 : ℕ) : ZMod exCurve.n) [2] [0]
    (by decide)

/-- Claim C1: for every valid BIP32 path of non-hardened indices, iterating
bip32_CKDpub along the path from a parent extended public key that matches the
master private key and chain code yields the same compressed public key and
chain code as the public projection of the private derivation along the same
path, for every curve capability whose base-point multiplication is a group
homomorphism and whose point parser inverts the point serializer. -/
theorem bip32_pub_priv_consistency (C : CurveCap) (H : HashCap)
    (hparse : ∀ P, C.parseP (C.serP P) = some P)
    (hhom : ∀ a b : ZMod C.n,
      C.basemul (a + b) = C.padd (C.basemul a) (C.basemul b))
    (path : List ℕ) (parent : serialized_extended_pubkey_t)
    (k k' : ZMod C.n) (c c' : List ℕ)
    (hpath : ∀ i ∈ path, i < bip32_first_hardened_child)
    (hk : parent.compressed_pubkey = C.serP (C.basemul k))
    (hc : parent.chain_code = c)
    (hpriv : crypto_derive_private_key C k c path = some (k', c')) :
    ∃ r, bip32_CKDpub_iter C H parent path = .ok r ∧
      r.compressed_pubkey = C.serP (C.basemul k') ∧ r.chain_code = c' := by
  induction path generalizing parent k c with
  | nil =>
    simp only [crypto_derive_private_key, Option.some.injEq, Prod.mk.injEq]
      at hpriv
    obtain ⟨rfl, rfl⟩ := hpriv
    exact ⟨parent, rfl, hk, hc⟩
  | cons i rest ih =>
    have hi : i < bip32_first_hardened_child := hpath i (by simp)
    cases hstep : ckd_priv_child C k c i with
    | none => simp [crypto_derive_private_key, hstep] at hpriv
    | some kc =>
      obtain ⟨kc1, kc2⟩ := kc
      simp only [crypto_derive_private_key, hstep] at hpriv
      simp only [ckd_priv_child] at hstep
      rw [if_pos hi] at hstep
      by_cases hn :
          C.n ≤ beToNat ((C.hmac512 c
            (C.serP (C.basemul k) ++ write_u32_be i)).take 32)
      · rw [if_pos hn] at hstep
        exact absurd hstep (by simp)
      · rw [if_neg hn] at hstep
        by_cases hz :
            ((beToNat ((C.hmac512 c
                (C.serP (C.basemul k) ++ write_u32_be i)).take 32) : ZMod C.n)
              + k) = 0
        · rw [if_pos hz] at hstep
          exact absurd hstep (by simp)
        · rw [if_neg hz] at hstep
          simp only [Option.some.injEq, Prod.mk.injEq] at hstep
          obtain ⟨he1, he2⟩ := hstep
          have hpub : bip32_CKDpub C H parent i parent =
              (.ok (),
                { version := parent.version
                  depth := parent.depth + 1
                  parent_fingerprint :=
                    write_u32_be
                      (crypto_get_key_fingerprint H (C.serP (C.basemul k)))
                  child_number := write_u32_be i
                  chain_code :=
                    (C.hmac512 c (C.serP (C.basemul k) ++ write_u32_be i)).drop 32
                  compressed_pubkey :=
                    C.serP (C.padd
                      (C.basemul
                        ((beToNat ((C.hmac512 c
                          (C.serP (C.basemul k) ++ write_u32_be i)).take 32)
                            : ZMod C.n)))
                      (C.basemul k)) }) := by
            unfold bip32_CKDpub
            rw [if_neg (not_le.mpr hi), hk, hc, hparse]
          simp only [bip32_CKDpub_iter, hpub]
          refine ih _ kc1 kc2 (fun j hj => hpath j (List.mem_cons_of_mem _ hj))
            ?_ ?_ hpriv
          · rw [← he1, hhom]
          · exact he2

/-- Witness for claim C1: over the concrete capabilities, the single-step path
[0] gives the public projection of the derived private key 4 and the derived
chain code. -/
theorem bip32_pub_priv_consistency_witness :
    ∃ r, bip32_CKDpub_iter exCurve exHash exParent [0] = .ok r ∧
      r.compressed_pubkey =
        exCurve.serP (exCurve.basemul ((4 : ℕ) : ZMod exCurve.n)) ∧
      r.chain_code = List.replicate 31 0 ++ [3] :=
  bip32_pub_priv_consistency exCurve exHash
    (by intro P; fin_cases P <;> rfl)
    (by intro a b; fin_cases a <;> fin_cases b <;> rfl) [0]
    exParent ((1 : ℕ) : ZMod exCurve.n) ((4 : ℕ) : ZMod exCurve.n) [2]
    (List.replicate 31 0 ++ [3]) (by decide) (by rfl) (by rfl) (by rfl)

/-- Claim C4: round trip of the public-key codec. First conjunct: compressing
the decompression of a valid 33-byte compressed key (head 0x02 or 0x03, a
32-byte y recovered for its declared parity) gives the key back. Second
conjunct: decompressing the compression of a valid 65-byte uncompressed key
(head 0x04, coordinates x and y on the curve, so that y is recovered from x
and the parity of y) gives the key back. -/
theorem pubkey_codec_round_trip :
    (∀ (C : CurveCap) (a : ℕ) (t y : List ℕ),
        t.length = 32 → (a = 2 ∨ a = 3) →
        C.recoverY t (a - 2) = some y →
        y.length = 32 → y.getLastD 0 % 2 = a - 2 →
        (crypto_get_uncompressed_pubkey C (a :: t)).bind
          crypto_get_compressed_pubkey = .ok (a :: t)) ∧
      ∀ (C : CurveCap) (x y : List ℕ),
        x.length = 32 → y.length = 32 →
        C.recoverY x (y.getLastD 0 % 2) = some y →
        (crypto_get_compressed_pubkey (4 :: (x ++ y))).bind
          (crypto_get_uncompressed_pubkey C) = .ok (4 :: (x ++ y)) := by
  constructor
  · intro C a t y htlen ha hrec hylen hpar
    unfold crypto_get_uncompressed_pubkey
    rw [if_pos ⟨by simp [htlen], by simpa using ha⟩]
    have hd : (a :: t).drop 1 = t := rfl
    have hh : (a :: t).headD 0 = a := rfl
    rw [hd, hh, hrec]
    show crypto_get_compressed_pubkey (4 :: (t ++ y)) = .ok (a :: t)
    unfold crypto_get_compressed_pubkey
    rw [if_pos ⟨by simp [htlen, hylen], rfl⟩]
    have hdrop : ((4 : ℕ) :: (t ++ y)).drop 33 = y := by
      rw [List.drop_succ_cons, ← htlen, List.drop_left]
    have htake : (((4 : ℕ) :: (t ++ y)).drop 1).take 32 = t := by
      show (t ++ y).take 32 = t
      rw [← htlen, List.take_left]
    rw [hdrop, htake, hpar]
    have h2 : 2 + (a - 2) = a := by rcases ha with rfl | rfl <;> rfl
    rw [h2]
  · intro C x y hxlen hylen hrec
    unfold crypto_get_compressed_pubkey
    rw [if_pos ⟨by simp [hxlen, hylen], rfl⟩]
    have hdrop : ((4 : ℕ) :: (x ++ y)).drop 33 = y := by
      rw [List.drop_succ_cons, ← hxlen, List.drop_left]
    have htake : (((4 : ℕ) :: (x ++ y)).drop 1).take 32 = x := by
      show (x ++ y).take 32 = x
      rw [← hxlen, List.take_left]
    rw [hdrop, htake]
    show crypto_get_uncompressed_pubkey C ((2 + y.getLastD 0 % 2) :: x) =
      .ok (4 :: (x ++ y))
    unfold crypto_get_uncompressed_pubkey
    have hp2 : y.getLastD 0 % 2 < 2 := Nat.mod_lt _ (by norm_num)
    rw [if_pos ⟨by simp [hxlen], by simp only [List.headD_cons]; omega⟩]
    have hd : ((2 + y.getLastD 0 % 2) :: x).drop 1 = x := rfl
    have hh2 : ((2 + y.getLastD 0 % 2) :: x).headD 0 - 2 = y.getLastD 0 % 2 := by
      simp
    rw [hd, hh2, hrec]

/-- Witness for claim C4 at a concrete compressed key with head 3 and a
concrete uncompressed key, over the concrete capabilities. -/
theorem pubkey_codec_round_trip_witness :
    ((crypto_get_uncompressed_pubkey exCurve (3 :: List.replicate 32 5)).bind
        crypto_get_compressed_pubkey = .ok (3 :: List.replicate 32 5)) ∧
      (crypto_get_compressed_pubkey
          (4 :: (List.replicate 32 5 ++ (List.replicate 31 0 ++ [1])))).bind
        (crypto_get_uncompressed_pubkey exCurve) =
        .ok (4 :: (List.replicate 32 5 ++ (List.replicate 31 0 ++ [1]))) :=
  ⟨pubkey_codec_round_trip.1 exCurve 3 (List.replicate 32 5)
      (List.replicate 31 0 ++ [1]) (by decide) (by decide) (by decide)
      (by decide) (by decide),
    pubkey_codec_round_trip.2 exCurve (List.replicate 32 5)
      (List.replicate 31 0 ++ [1]) (by decide) (by decide) (by decide)⟩

/-- Claim C7: whenever the derivation at the path succeeds and the capability
outputs are well-formed (33-byte compressed key, 32-byte chain code), the
composed extended public key record serializes to exactly 78 bytes, carries
the given version, and get_serialized_extended_pubkey_at_path equals the
Base58 encoding of the record followed by the first 4 bytes of its double
SHA-256; when the destination cannot hold the text the call returns -1 with
the buffer untouched. -/
theorem get_serialized_extended_pubkey_at_path_spec (C : CurveCap) (H : HashCap)
    (k k' : ZMod C.n) (c c' : List ℕ) (path : List ℕ) (version : ℕ)
    (out0 : List Char) (out_len : ℕ)
    (hpriv : crypto_derive_private_key C k c path = some (k', c'))
    (hpk : (C.serP (C.basemul k')).length = 33)
    (hcc : c'.length = 32) :
    (serialize_extended_pubkey
        (xpub_record C H k c path version (k', c'))).length = 78 ∧
      (xpub_record C H k c path version (k', c')).version =
        write_u32_be version ∧
      get_serialized_extended_pubkey_at_path C H k c path version out0 out_len =
        base58_encode
          (serialize_extended_pubkey (xpub_record C H k c path version (k', c')) ++
            (H.sha256 (H.sha256 (serialize_extended_pubkey
              (xpub_record C H k c path version (k', c'))))).take 4)
          out0 out_len ∧
      (out_len <
          (base58_render
            (serialize_extended_pubkey (xpub_record C H k c path version (k', c')) ++
              (H.sha256 (H.sha256 (serialize_extended_pubkey
                (xpub_record C H k c path version (k', c'))))).take 4)).length + 1 →
        get_serialized_extended_pubkey_at_path C H k c path version out0 out_len =
          (-1, out0)) := by
  have hmain :
      get_serialized_extended_pubkey_at_path C H k c path version out0 out_len =
        base58_encode
          (serialize_extended_pubkey (xpub_record C H k c path version (k', c')) ++
            (H.sha256 (H.sha256 (serialize_extended_pubkey
              (xpub_record C H k c path version (k', c'))))).take 4)
          out0 out_len := by
    unfold get_serialized_extended_pubkey_at_path
    rw [hpriv]
    rfl
  refine ⟨?_, rfl, hmain, fun hcap => ?_⟩
  · simp [serialize_extended_pubkey, xpub_record, write_u32_be, hpk, hcc]
  · rw [hmain]
    simp only [base58_encode]
    rw [if_pos hcap]

/-- Witness for claim C7 at the concrete path [0] with a generous capacity. -/
theorem get_serialized_extended_pubkey_at_path_spec_witness :
    (serialize_extended_pubkey
        (xpub_record exCurve exHash ((1 : ℕ) : ZMod exCurve.n) [2] [0] 76067358
          (((4 : ℕ) : ZMod exCurve.n), List.replicate 31 0 ++ [3]))).length = 78 ∧
      (xpub_record exCurve exHash ((1 : ℕ) : ZMod exCurve.n) [2] [0] 76067358
          (((4 : ℕ) : ZMod exCurve.n), List.replicate 31 0 ++ [3])).version =
        write_u32_be 76067358 ∧
      get_serialized_extended_pubkey_at_path exCurve exHash
          ((1 : ℕ) : ZMod exCurve.n) [2] [0] 76067358 [] 200 =
        base58_encode
          (serialize_extended_pubkey
              (xpub_record exCurve exHash ((1 : ℕ) : ZMod exCurve.n) [2] [0]
                76067358 (((4 : ℕ) : ZMod exCurve.n), List.replicate 31 0 ++ [3])) ++
            (exHash.sha256 (exHash.sha256 (serialize_extended_pubkey
              (xpub_record exCurve exHash ((1 : ℕ) : ZMod exCurve.n) [2] [0]
                76067358
                (((4 : ℕ) : ZMod exCurve.n), List.replicate 31 0 ++ [3]))))).take 4)
          [] 200 ∧
      (200 <
          (base58_render
            (serialize_extended_pubkey
                (xpub_record exCurve exHash ((1 : ℕ) : ZMod exCurve.n) [2] [0]
                  76067358
                  (((4 : ℕ) : ZMod exCurve.n), List.replicate 31 0 ++ [3])) ++
              (exHash.sha256 (exHash.sha256 (serialize_extended_pubkey
                (xpub_record exCurve exHash ((1 : ℕ) : ZMod exCurve.n) [2] [0]
                  76067358
                  (((4 : ℕ) : ZMod exCurve.n),
                    List.replicate 31 0 ++ [3]))))).take 4)).length + 1 →
        get_serialized_extended_pubkey_at_path exCurve exHash
            ((1 : ℕ) : ZMod exCurve.n) [2] [0] 76067358 [] 200 = (-1, [])) :=
  get_serialized_extended_pubkey_at_path_spec exCurve exHash
    ((1 : ℕ) : ZMod exCurve.n) ((4 : ℕ) : ZMod exCurve.n) [2]
    (List.replicate 31 0 ++ [3]) [0] 76067358 [] 200 (by rfl) (by decide)
    (by decide)
